import Mathlib

/-!
Shallow embedding of the doctor-review Streamlit app (src/app.py, the
`app_code3` script): dynamic cell values, the seed table `base_df`, the
helpers `_nonempty`, `_proposed_pairs`, `get_changes`, `log_audit`, the row
operations `accept_row` / `reject_row`, the two clear buttons, and the
summary rollup. Machine-level Python details are modelled explicitly: cell
values are a sum type covering strings, ints, `None` and float NaN; Python
`!=` on cells is `Val.pyEq`; `str(v).strip()` is `pyStrip`; dict assignment
`ss.actions[name] = a` is `set_action` on an insertion-ordered association
list.
-/

namespace DoctorReview

/-- Dynamic value held in one DataFrame cell: a string, an int, Python
`None`, or a float NaN (pandas missing value). -/
inductive Val where
  | vstr (s : String)
  | vint (n : Int)
  | vnone
  | vnan
deriving DecidableEq, Repr

/-- Python `==` on the cell values that occur here: strings compare by
content, ints by value, `None == None` is true, NaN compares unequal to
everything (itself included), and values of different kinds are unequal. -/
def Val.pyEq : Val → Val → Bool
  | .vstr s, .vstr t => s == t
  | .vint n, .vint m => n == m
  | .vnone, .vnone => true
  | _, _ => false

/-- Python `isinstance(v, str)`. -/
def Val.isStr : Val → Bool
  | .vstr _ => true
  | _ => false

/-- Python `str(v)` for the cases `_nonempty` can reach (not `None`, not NaN);
the other two cases are given their Python renderings for totality. -/
def pyStr : Val → String
  | .vstr s => s
  | .vint n => toString n
  | .vnone => "None"
  | .vnan => "nan"

/-- Python `str.strip()` on the character list: drop whitespace from both
ends. -/
def stripChars (l : List Char) : List Char :=
  ((l.dropWhile Char.isWhitespace).reverse.dropWhile Char.isWhitespace).reverse

/-- Python `s.strip()`. -/
def pyStrip (s : String) : String := String.mk (stripChars s.data)

/-- `_nonempty(v)` from app.py: `None` and float NaN are empty; otherwise a
value is non-empty iff `str(v).strip() != ""`. -/
def _nonempty (v : Val) : Bool :=
  match v with
  | .vnone => false
  | .vnan => false
  | v => pyStrip (pyStr v) != ""

/-- The four tracked base columns. -/
inductive Field where
  | address
  | focus
  | schoolGraduated
  | year
deriving DecidableEq, Repr

/-- Column name of a base field. -/
def Field.name : Field → String
  | .address => "Address"
  | .focus => "Focus"
  | .schoolGraduated => "School Graduated"
  | .year => "Year"

/-- `_proposed_pairs()` from app.py: the fixed order of (base, "New " base)
column pairs, represented by the base field. -/
def _proposed_pairs : List Field :=
  [.address, .focus, .schoolGraduated, .year]

/-- One DataFrame row: identity, source link, the four current columns and
the four proposal columns. -/
structure Row where
  name : String
  sourcePage : String
  address : Val
  focus : Val
  schoolGraduated : Val
  year : Val
  newAddress : Val
  newFocus : Val
  newSchoolGraduated : Val
  newYear : Val
deriving DecidableEq, Repr

/-- `row[base_col]`: the current value of a tracked field. -/
def Row.cur (r : Row) : Field → Val
  | .address => r.address
  | .focus => r.focus
  | .schoolGraduated => r.schoolGraduated
  | .year => r.year

/-- `row[new_col]`: the proposal slot of a tracked field. -/
def Row.prop (r : Row) : Field → Val
  | .address => r.newAddress
  | .focus => r.newFocus
  | .schoolGraduated => r.newSchoolGraduated
  | .year => r.newYear

/-- `df.at[idx, base_col] = v` restricted to one row. -/
def Row.setCur (r : Row) (f : Field) (v : Val) : Row :=
  match f with
  | .address => { r with address := v }
  | .focus => { r with focus := v }
  | .schoolGraduated => { r with schoolGraduated := v }
  | .year => { r with year := v }

/-- `df.at[idx, new_col] = v` restricted to one row. -/
def Row.setProp (r : Row) (f : Field) (v : Val) : Row :=
  match f with
  | .address => { r with newAddress := v }
  | .focus => { r with newFocus := v }
  | .schoolGraduated => { r with newSchoolGraduated := v }
  | .year => { r with newYear := v }

/-- `get_changes(row)` from app.py: walk `_proposed_pairs` in order and keep
`(field, old, new)` whenever the proposal is `_nonempty` and `new_val !=
row[base_col]`. -/
def get_changes (row : Row) : List (Field × Val × Val) :=
  _proposed_pairs.foldl
    (fun changes f =>
      let new_val := row.prop f
      if _nonempty new_val && !(new_val.pyEq (row.cur f)) then
        changes ++ [(f, row.cur f, new_val)]
      else
        changes)
    []

/-- A wall-clock instant as `datetime.now()` sees it, down to the second
(finer precision is irrelevant to the format used). -/
structure DateTime where
  year : Nat
  month : Nat
  day : Nat
  hour : Nat
  minute : Nat
  second : Nat
deriving DecidableEq, Repr

/-- Zero-padding to two digits, as strftime `%m`, `%d`, `%H`, `%M` do. -/
def pad2 (n : Nat) : String :=
  if n < 10 then "0" ++ toString n else toString n

/-- `datetime.now().strftime("%Y-%m-%d %H:%M")`: the timestamp format of
`log_audit`, which stops at the minute. -/
def strftime_minute (d : DateTime) : String :=
  toString d.year ++ "-" ++ pad2 d.month ++ "-" ++ pad2 d.day ++ " "
    ++ pad2 d.hour ++ ":" ++ pad2 d.minute

/-- `REVIEWER` from app.py. -/
def REVIEWER : String := "Albert Yao"

/-- One entry of `ss.audit`: the dict `{Time, Reviewer, Name, Action,
Fields}`, with `Fields` already joined to a display string as in
`log_audit`. -/
structure AuditEntry where
  time : String
  reviewer : String
  name : String
  action : String
  fields : String
deriving DecidableEq, Repr

/-- The session state `ss`: the `doctors` table as a list of rows indexed by
position, the `actions` dict as an insertion-ordered association list, and
the `audit` list. -/
structure St where
  doctors : List Row
  actions : List (String × String)
  audit : List AuditEntry
deriving DecidableEq, Repr

/-- Python dict assignment `m[k] = v` on an insertion-ordered association
list: overwrite the value at an existing key, else append the new pair. -/
def set_action (m : List (String × String)) (k v : String) :
    List (String × String) :=
  if m.any (fun p => p.1 == k) then
    m.map (fun p => if p.1 == k then (p.1, v) else p)
  else
    m ++ [(k, v)]

/-- Python dict read `m.get(k)`: value of the first pair whose key is `k`. -/
def dict_get (m : List (String × String)) (k : String) : Option String :=
  (m.find? (fun p => p.1 == k)).map (fun p => p.2)

/-- `log_audit(name, action, fields_changed)` from app.py: append one entry
with the formatted timestamp, `REVIEWER`, the name, the action and
`", ".join(fields_changed)` (or `"-"` when the list is empty). -/
def log_audit (now : DateTime) (s : St) (name action : String)
    (fields_changed : List String) : St :=
  { s with
    audit := s.audit ++
      [{ time := strftime_minute now
         reviewer := REVIEWER
         name := name
         action := action
         fields := if fields_changed.isEmpty then "-"
                   else String.intercalate ", " fields_changed }] }

/-- `"" if isinstance(slot, str) else None`: how both `accept_row` and
`reject_row` reset a proposal slot. -/
def clear_slot (v : Val) : Val :=
  if v.isStr then .vstr "" else .vnone

/-- One iteration of the `accept_row` loop: write the new value into the
base column, then reset that field's proposal slot. -/
def apply_change (r : Row) (c : Field × Val × Val) : Row :=
  let r1 := r.setCur c.1 c.2.2
  r1.setProp c.1 (clear_slot (r1.prop c.1))

/-- `accept_row(idx)` from app.py. `df.loc[idx]` raises on a missing index,
so the result is an `Option`. On no changes, only a no-op audit entry is
appended; otherwise every changed field is overwritten, its slot cleared,
`ss.actions[name]` set to `"accepted"`, and one audit entry appended. -/
def accept_row (now : DateTime) (s : St) (idx : Nat) : Option St :=
  match s.doctors[idx]? with
  | none => none
  | some row =>
    let changes := get_changes row
    if changes.isEmpty then
      some (log_audit now s row.name "accepted (no-op)" [])
    else
      let row2 := changes.foldl apply_change row
      let changed_fields := changes.map (fun c => c.1.name)
      let s1 : St :=
        { s with
          doctors := s.doctors.set idx row2
          actions := set_action s.actions row.name "accepted" }
      some (log_audit now s1 row.name "accepted" changed_fields)

/-- The fields collected by the `reject_row` loop: those whose proposal slot
is `_nonempty`, in the `_proposed_pairs` order. -/
def proposed_fields (row : Row) : List Field :=
  _proposed_pairs.filter (fun f => _nonempty (row.prop f))

/-- One iteration of the `reject_row` loop body: reset field `f`'s proposal
slot. -/
def clear_step (r : Row) (f : Field) : Row :=
  r.setProp f (clear_slot (r.prop f))

/-- `reject_row(idx)` from app.py: clear every `_nonempty` proposal slot
(currents untouched), set `ss.actions[name] = "rejected"` unconditionally,
and append one audit entry with the cleared fields. -/
def reject_row (now : DateTime) (s : St) (idx : Nat) : Option St :=
  match s.doctors[idx]? with
  | none => none
  | some row =>
    let row2 := (proposed_fields row).foldl clear_step row
    let s1 : St :=
      { s with
        doctors := s.doctors.set idx row2
        actions := set_action s.actions row.name "rejected" }
    some (log_audit now s1 row.name "rejected"
      ((proposed_fields row).map Field.name))

/-- The "Clear Session Actions" button: `ss.actions = {}`. -/
def clear_actions (s : St) : St := { s with actions := [] }

/-- The "Clear Audit Log" button: `ss.audit = []`. -/
def clear_audit (s : St) : St := { s with audit := [] }

/-- The summary rollup's accepted column: names whose recorded action
`startswith("accepted")`. -/
def accepted_names (actions : List (String × String)) : List String :=
  (actions.filter (fun p => p.2.startsWith "accepted")).map (fun p => p.1)

/-- The summary rollup's rejected column: names whose recorded action is
exactly `"rejected"`. -/
def rejected_names (actions : List (String × String)) : List String :=
  (actions.filter (fun p => p.2 == "rejected")).map (fun p => p.1)

/-- Seed row 0 of `base_df`. -/
def sarah_row : Row :=
  { name := "Dr. Sarah Johnson"
    sourcePage := "https://example.com/sarah-johnson"
    address := .vstr "123 Medical Center Dr, Boston, MA"
    focus := .vstr "Cardiology"
    schoolGraduated := .vstr "Harvard Medical School"
    year := .vint 2015
    newAddress := .vstr "123 Medical Center Dr, Boston, MA"
    newFocus := .vstr ""
    newSchoolGraduated := .vstr ""
    newYear := .vnone }

/-- Seed row 1 of `base_df`. -/
def chen_row : Row :=
  { name := "Dr. Michael Chen"
    sourcePage := "https://example.com/michael-chen"
    address := .vstr "456 Healthcare Blvd, New York, NY"
    focus := .vstr "Neurology"
    schoolGraduated := .vstr "Johns Hopkins"
    year := .vint 2018
    newAddress := .vstr "999 5th Ave, New York, NY"
    newFocus := .vstr "Neurosurgery"
    newSchoolGraduated := .vstr ""
    newYear := .vnone }

/-- Seed row 2 of `base_df`. -/
def emily_row : Row :=
  { name := "Dr. Emily Rodriguez"
    sourcePage := "https://example.com/emily-rodriguez"
    address := .vstr "789 Clinic Ave, Chicago, IL"
    focus := .vstr "Pediatrics"
    schoolGraduated := .vstr "Stanford Medicine"
    year := .vint 2012
    newAddress := .vstr ""
    newFocus := .vstr ""
    newSchoolGraduated := .vstr "Stanford School of Medicine"
    newYear := .vnone }

/-- Seed row 3 of `base_df`. -/
def james_row : Row :=
  { name := "Dr. James Wilson"
    sourcePage := "https://example.com/james-wilson"
    address := .vstr "321 Hospital St, Los Angeles, CA"
    focus := .vstr "Orthopedics"
    schoolGraduated := .vstr "Yale School of Medicine"
    year := .vint 2016
    newAddress := .vstr ""
    newFocus := .vstr ""
    newSchoolGraduated := .vstr ""
    newYear := .vint 2018 }

/-- Seed row 4 of `base_df`. -/
def lisa_row : Row :=
  { name := "Dr. Lisa Park"
    sourcePage := "https://example.com/lisa-park"
    address := .vstr "654 Medical Plaza, Houston, TX"
    focus := .vstr "Dermatology"
    schoolGraduated := .vstr "UCLA Medical School"
    year := .vint 2020
    newAddress := .vstr "1200 Main St, Houston, TX"
    newFocus := .vstr ""
    newSchoolGraduated := .vstr ""
    newYear := .vnone }

/-- `base_df` from app.py, row by row. -/
def base_df : List Row :=
  [sarah_row, chen_row, emily_row, james_row, lisa_row]

/-- Session state right after seeding: `ss.doctors = base_df.copy()`,
`ss.actions = {}`, `ss.audit = []`. -/
def init_state : St :=
  { doctors := base_df, actions := [], audit := [] }

/-- Timestamp used by concrete instantiations of the theorems below. -/
def dt0 : DateTime := ⟨2026, 10, 12, 9, 5, 33⟩

/-- Seed row 0 after its one proposal slot has been cleared (the state a
reject leaves it in). -/
def sarah_cleared : Row := { sarah_row with newAddress := Val.vstr "" }

/-- A session in which row 0 has already been resolved: all proposal slots
inactive, the action recorded. -/
def cleared_state : St :=
  { doctors := [sarah_cleared]
    actions := [("Dr. Sarah Johnson", "rejected")]
    audit := [] }

/-- Seed row 0 with a whitespace-only Focus proposal, for the
whitespace-discarding instantiation. -/
def ws_row : Row := { sarah_row with newFocus := Val.vstr "   " }

/-- The condition under which `get_changes` keeps a field: proposal
`_nonempty` and different (Python `!=`) from the current value. -/
def is_change (row : Row) (f : Field) : Bool :=
  _nonempty (row.prop f) && !((row.prop f).pyEq (row.cur f))

/-- Modelled from the spec: "for each of the four tracked field pairs,
include the pair iff the proposed value is non-empty/non-null AND differs
from the current value; order follows the fixed field order". Reference
definition for the refinement claim about `get_changes`. -/
def changes_spec (row : Row) : List (Field × Val × Val) :=
  (_proposed_pairs.filter (fun f => is_change row f)).map
    (fun f => (f, row.cur f, row.prop f))

theorem get_changes_eq (row : Row) : get_changes row = changes_spec row := by
  unfold get_changes changes_spec is_change _proposed_pairs
  simp only [List.foldl, List.filter, List.map]
  by_cases h1 : (_nonempty (row.prop .address)
      && !((row.prop .address).pyEq (row.cur .address))) = true <;>
    by_cases h2 : (_nonempty (row.prop .focus)
      && !((row.prop .focus).pyEq (row.cur .focus))) = true <;>
    by_cases h3 : (_nonempty (row.prop .schoolGraduated)
      && !((row.prop .schoolGraduated).pyEq (row.cur .schoolGraduated))) = true <;>
    by_cases h4 : (_nonempty (row.prop .year)
      && !((row.prop .year).pyEq (row.cur .year))) = true <;>
    simp [h1, h2, h3, h4]

theorem mem_get_changes (row : Row) (c : Field × Val × Val)
    (hc : c ∈ get_changes row) :
    c.2.1 = row.cur c.1 ∧ c.2.2 = row.prop c.1 ∧ is_change row c.1 = true := by
  rw [get_changes_eq] at hc
  unfold changes_spec at hc
  rcases List.mem_map.1 hc with ⟨f, hf, rfl⟩
  exact ⟨rfl, rfl, (List.mem_filter.1 hf).2⟩

theorem get_changes_map_fst (row : Row) :
    (get_changes row).map (fun c => c.1)
      = _proposed_pairs.filter (fun f => is_change row f) := by
  rw [get_changes_eq]
  unfold changes_spec
  rw [List.map_map]
  exact (show List.map id (_proposed_pairs.filter (fun f => is_change row f))
      = _proposed_pairs.filter (fun f => is_change row f) from List.map_id _)

theorem proposed_pairs_nodup : _proposed_pairs.Nodup := by decide

theorem get_changes_fst_nodup (row : Row) :
    ((get_changes row).map (fun c => c.1)).Nodup := by
  rw [get_changes_map_fst]
  exact proposed_pairs_nodup.filter _

theorem setCur_cur (r : Row) (f g : Field) (v : Val) :
    (r.setCur f v).cur g = if g = f then v else r.cur g := by
  cases f <;> cases g <;> simp [Row.setCur, Row.cur]

theorem setCur_prop (r : Row) (f g : Field) (v : Val) :
    (r.setCur f v).prop g = r.prop g := by
  cases f <;> cases g <;> rfl

theorem setProp_prop (r : Row) (f g : Field) (v : Val) :
    (r.setProp f v).prop g = if g = f then v else r.prop g := by
  cases f <;> cases g <;> simp [Row.setProp, Row.prop]

theorem setProp_cur (r : Row) (f g : Field) (v : Val) :
    (r.setProp f v).cur g = r.cur g := by
  cases f <;> cases g <;> rfl

theorem setCur_name (r : Row) (f : Field) (v : Val) :
    (r.setCur f v).name = r.name := by
  cases f <;> rfl

theorem setProp_name (r : Row) (f : Field) (v : Val) :
    (r.setProp f v).name = r.name := by
  cases f <;> rfl

theorem apply_change_cur_self (r : Row) (c : Field × Val × Val) :
    (apply_change r c).cur c.1 = c.2.2 := by
  simp [apply_change, setProp_cur, setCur_cur]

theorem apply_change_prop_self (r : Row) (c : Field × Val × Val) :
    (apply_change r c).prop c.1 = clear_slot (r.prop c.1) := by
  simp [apply_change, setProp_prop, setCur_prop]

theorem apply_change_cur_ne (r : Row) (c : Field × Val × Val) (g : Field)
    (h : c.1 ≠ g) : (apply_change r c).cur g = r.cur g := by
  simp [apply_change, setProp_cur, setCur_cur, Ne.symm h]

theorem apply_change_prop_ne (r : Row) (c : Field × Val × Val) (g : Field)
    (h : c.1 ≠ g) : (apply_change r c).prop g = r.prop g := by
  simp [apply_change, setProp_prop, setCur_prop, Ne.symm h]

theorem apply_change_name (r : Row) (c : Field × Val × Val) :
    (apply_change r c).name = r.name := by
  simp [apply_change, setProp_name, setCur_name]

theorem foldl_apply_change_cur_not_mem (cs : List (Field × Val × Val))
    (r : Row) (g : Field) (h : ∀ c ∈ cs, c.1 ≠ g) :
    (cs.foldl apply_change r).cur g = r.cur g := by
  induction cs generalizing r with
  | nil => rfl
  | cons d t ih =>
    rw [List.foldl_cons, ih _ (fun c hc => h c (List.mem_cons_of_mem d hc))]
    exact apply_change_cur_ne r d g (h d (List.mem_cons_self d t))

theorem foldl_apply_change_prop_not_mem (cs : List (Field × Val × Val))
    (r : Row) (g : Field) (h : ∀ c ∈ cs, c.1 ≠ g) :
    (cs.foldl apply_change r).prop g = r.prop g := by
  induction cs generalizing r with
  | nil => rfl
  | cons d t ih =>
    rw [List.foldl_cons, ih _ (fun c hc => h c (List.mem_cons_of_mem d hc))]
    exact apply_change_prop_ne r d g (h d (List.mem_cons_self d t))

theorem foldl_apply_change_mem (cs : List (Field × Val × Val)) (r : Row)
    (c : Field × Val × Val) (hnd : (cs.map (fun x => x.1)).Nodup)
    (hc : c ∈ cs) :
    (cs.foldl apply_change r).cur c.1 = c.2.2 ∧
    (cs.foldl apply_change r).prop c.1 = clear_slot (r.prop c.1) := by
  induction cs generalizing r with
  | nil => cases hc
  | cons d t ih =>
    rw [List.map_cons, List.nodup_cons] at hnd
    rw [List.foldl_cons]
    rcases List.mem_cons.1 hc with rfl | hct
    · have hne : ∀ e ∈ t, e.1 ≠ c.1 := by
        intro e he heq
        exact hnd.1 (heq ▸ List.mem_map_of_mem (fun x => x.1) he)
      constructor
      · rw [foldl_apply_change_cur_not_mem t _ c.1 hne]
        exact apply_change_cur_self r c
      · rw [foldl_apply_change_prop_not_mem t _ c.1 hne]
        exact apply_change_prop_self r c
    · have hdc : d.1 ≠ c.1 := by
        intro heq
        exact hnd.1 (heq ▸ List.mem_map_of_mem (fun x => x.1) hct)
      rcases ih (apply_change r d) hnd.2 hct with ⟨h1, h2⟩
      exact ⟨h1, by rw [h2, apply_change_prop_ne r d c.1 hdc]⟩

theorem foldl_apply_change_name (cs : List (Field × Val × Val)) (r : Row) :
    (cs.foldl apply_change r).name = r.name := by
  induction cs generalizing r with
  | nil => rfl
  | cons d t ih => rw [List.foldl_cons, ih, apply_change_name]

theorem clear_step_cur (r : Row) (f g : Field) :
    (clear_step r f).cur g = r.cur g := by
  simp [clear_step, setProp_cur]

theorem clear_step_name (r : Row) (f : Field) :
    (clear_step r f).name = r.name := by
  simp [clear_step, setProp_name]

theorem foldl_clear_step_cur (fs : List Field) (r : Row) (g : Field) :
    (fs.foldl clear_step r).cur g = r.cur g := by
  induction fs generalizing r with
  | nil => rfl
  | cons d t ih => rw [List.foldl_cons, ih, clear_step_cur]

theorem foldl_clear_step_name (fs : List Field) (r : Row) :
    (fs.foldl clear_step r).name = r.name := by
  induction fs generalizing r with
  | nil => rfl
  | cons d t ih => rw [List.foldl_cons, ih, clear_step_name]

theorem foldl_clear_step_prop_not_mem (fs : List Field) (r : Row) (g : Field)
    (h : g ∉ fs) : (fs.foldl clear_step r).prop g = r.prop g := by
  induction fs generalizing r with
  | nil => rfl
  | cons d t ih =>
    rw [List.foldl_cons, ih _ (fun hg => h (List.mem_cons_of_mem d hg))]
    have hdg : d ≠ g := fun heq => h (heq ▸ List.mem_cons_self d t)
    simp [clear_step, setProp_prop, Ne.symm hdg]

theorem foldl_clear_step_prop_mem (fs : List Field) (r : Row) (g : Field)
    (hnd : fs.Nodup) (hg : g ∈ fs) :
    (fs.foldl clear_step r).prop g = clear_slot (r.prop g) := by
  induction fs generalizing r with
  | nil => cases hg
  | cons d t ih =>
    rw [List.nodup_cons] at hnd
    rw [List.foldl_cons]
    rcases List.mem_cons.1 hg with rfl | hgt
    · rw [foldl_clear_step_prop_not_mem t _ g hnd.1]
      simp [clear_step, setProp_prop]
    · have hdg : d ≠ g := fun heq => hnd.1 (heq ▸ hgt)
      rw [ih _ hnd.2 hgt]
      simp [clear_step, setProp_prop, Ne.symm hdg]

theorem proposed_fields_nodup (row : Row) : (proposed_fields row).Nodup :=
  proposed_pairs_nodup.filter _

theorem dict_get_set_action (m : List (String × String)) (k v : String) :
    dict_get (set_action m k v) k = some v := by
  induction m with
  | nil => simp [set_action, dict_get, List.find?]
  | cons a t ih =>
    by_cases h : a.1 == k
    · simp only [set_action, List.any_cons, h, Bool.true_or, if_pos rfl,
        List.map_cons, if_pos h, dict_get, List.find?]
      simp [h]
    · have hany : ((a :: t).any fun p => p.1 == k) = (t.any fun p => p.1 == k) := by
        simp [List.any_cons, h]
      by_cases ht : (t.any fun p => p.1 == k) = true
      · simp only [set_action, hany, ht, if_pos rfl, List.map_cons, if_neg h]
        have := ih
        simp only [set_action, ht, if_pos rfl] at this
        simpa [dict_get, List.find?, h] using this
      · simp only [set_action, hany, ht]
        have := ih
        simp only [set_action, ht] at this
        simp only [Bool.false_eq_true, if_false] at this ⊢
        simpa [dict_get, List.find?, h] using this

theorem accept_row_eq_of_changes (now : DateTime) (s : St) (idx : Nat)
    (row : Row) (hrow : s.doctors[idx]? = some row)
    (hk : get_changes row ≠ []) :
    accept_row now s idx = some (log_audit now
      { s with
        doctors := s.doctors.set idx ((get_changes row).foldl apply_change row)
        actions := set_action s.actions row.name "accepted" }
      row.name "accepted" ((get_changes row).map (fun c => c.1.name))) := by
  have hne : (get_changes row).isEmpty = false := by
    cases hcs : get_changes row with
    | nil => exact absurd hcs hk
    | cons c t => rfl
  unfold accept_row
  rw [hrow]
  simp only [hne, Bool.false_eq_true, if_false]

theorem accept_row_eq_of_no_changes (now : DateTime) (s : St) (idx : Nat)
    (row : Row) (hrow : s.doctors[idx]? = some row)
    (hz : get_changes row = []) :
    accept_row now s idx
      = some (log_audit now s row.name "accepted (no-op)" []) := by
  unfold accept_row
  rw [hrow]
  simp only [hz, List.isEmpty_nil, if_true]

theorem reject_row_eq (now : DateTime) (s : St) (idx : Nat) (row : Row)
    (hrow : s.doctors[idx]? = some row) :
    reject_row now s idx = some (log_audit now
      { s with
        doctors := s.doctors.set idx ((proposed_fields row).foldl clear_step row)
        actions := set_action s.actions row.name "rejected" }
      row.name "rejected" ((proposed_fields row).map Field.name)) := by
  unfold reject_row
  rw [hrow]

theorem get_changes_nil_of_inactive (row : Row)
    (h : ∀ f, _nonempty (row.prop f) = false) : get_changes row = [] := by
  rw [get_changes_eq]
  unfold changes_spec
  have hf : _proposed_pairs.filter (fun f => is_change row f) = [] :=
    List.filter_eq_nil_iff.2 (fun f _ => by simp [is_change, h f])
  rw [hf]
  rfl

theorem proposed_fields_nil_of_inactive (row : Row)
    (h : ∀ f, _nonempty (row.prop f) = false) : proposed_fields row = [] :=
  List.filter_eq_nil_iff.2 (fun f _ => by simp [h f])

/-- C2: the change detector returns exactly the tracked field pairs whose
proposal is non-empty/non-null and differs (Python `!=`) from the current
value, in the fixed `_proposed_pairs` order — the `changes_spec` reading of
the spec — and it is a pure function of the row's tracked fields: any two
rows agreeing on current values and proposal slots yield the same change
list, so repeated invocations on an unmodified row return the same result
every call. -/
theorem get_changes_matches_spec (row row' : Row)
    (hcur : ∀ f, row.cur f = row'.cur f)
    (hprop : ∀ f, row.prop f = row'.prop f) :
    get_changes row = changes_spec row ∧
    get_changes row = get_changes row' := by
  refine ⟨get_changes_eq row, ?_⟩
  rw [get_changes_eq, get_changes_eq]
  unfold changes_spec is_change
  simp only [hcur, hprop]

/-- Witness: the characterization and purity of `get_changes` at the seed
row of Dr. Michael Chen. -/
theorem get_changes_matches_spec_witness :
    get_changes chen_row = changes_spec chen_row ∧
    get_changes chen_row = get_changes chen_row :=
  get_changes_matches_spec chen_row chen_row (fun _ => rfl) (fun _ => rfl)

/-- C4: accepting a row with zero active changes mutates no current field
and no proposal slot, is not an error (it returns a successor state), and
appends exactly one audit entry with action `accepted (no-op)` and the
empty field list, rendered as the placeholder `-`. -/
theorem accept_noop_logs_only (now : DateTime) (s : St) (idx : Nat)
    (row : Row) (hrow : s.doctors[idx]? = some row)
    (hz : get_changes row = []) :
    accept_row now s idx = some
      { s with audit := s.audit ++
          [{ time := strftime_minute now, reviewer := REVIEWER,
             name := row.name, action := "accepted (no-op)",
             fields := "-" }] } := by
  rw [accept_row_eq_of_no_changes now s idx row hrow hz]
  rfl

/-- Witness: a no-op accept on seed row 0 (Dr. Sarah Johnson, whose only
proposal equals her current Address). -/
theorem accept_noop_logs_only_witness :
    accept_row dt0 init_state 0 = some
      { init_state with audit := init_state.audit ++
          [{ time := strftime_minute dt0, reviewer := REVIEWER,
             name := sarah_row.name, action := "accepted (no-op)",
             fields := "-" }] } :=
  accept_noop_logs_only dt0 init_state 0 sarah_row rfl (by decide)

/-- C5 fails on the seed data: Dr. Michael Chen's Address proposal
`999 5th Ave, New York, NY` does not equal his current Address
`456 Healthcare Blvd, New York, NY`, so the change list is not the single
Focus entry the claim asserts. -/
theorem chen_counterexample :
    chen_row.newAddress ≠ chen_row.address ∧
    get_changes chen_row ≠
      [(Field.focus, Val.vstr "Neurology", Val.vstr "Neurosurgery")] := by
  decide

/-- C5 amended: Dr. Michael Chen's seed row has two changes — Address
(current differs from the proposal) and Focus — so `get_changes` returns
both in fixed order, and accepting row 1 of the seeded state updates both
fields, clears both proposal slots (to empty strings), records the action,
and appends one `accepted` audit entry with field list `Address, Focus`. -/
theorem chen_accept_amended :
    get_changes chen_row =
      [(Field.address, Val.vstr "456 Healthcare Blvd, New York, NY",
        Val.vstr "999 5th Ave, New York, NY"),
       (Field.focus, Val.vstr "Neurology", Val.vstr "Neurosurgery")] ∧
    accept_row dt0 init_state 1 = some
      { doctors :=
          [sarah_row,
           { chen_row with
             address := Val.vstr "999 5th Ave, New York, NY"
             focus := Val.vstr "Neurosurgery"
             newAddress := Val.vstr ""
             newFocus := Val.vstr "" },
           emily_row, james_row, lisa_row]
        actions := [("Dr. Michael Chen", "accepted")]
        audit := [{ time := "2026-10-12 09:05", reviewer := "Albert Yao",
                    name := "Dr. Michael Chen", action := "accepted",
                    fields := "Address, Focus" }] } := by
  decide

/-- C1: accepting a row whose change list is non-empty leaves every changed
current field equal to its prior proposed value, resets each changed
field's proposal slot via `clear_slot` (empty string when the slot held a
string, `None` otherwise), and appends exactly one audit entry with action
`accepted` whose field list is exactly the changed field names in the
computed order. -/
theorem accept_applies_all_changes (now : DateTime) (s : St) (idx : Nat)
    (row : Row) (hrow : s.doctors[idx]? = some row)
    (hk : get_changes row ≠ []) :
    ∃ s' row2, accept_row now s idx = some s' ∧
      s'.doctors[idx]? = some row2 ∧
      (∀ c ∈ get_changes row,
        row2.cur c.1 = row.prop c.1 ∧
        row2.prop c.1 = clear_slot (row.prop c.1)) ∧
      s'.audit = s.audit ++
        [{ time := strftime_minute now, reviewer := REVIEWER,
           name := row.name, action := "accepted",
           fields := String.intercalate ", "
             ((get_changes row).map (fun c => c.1.name)) }] := by
  have hlt : idx < s.doctors.length := (List.getElem?_eq_some.1 hrow).1
  refine ⟨_, (get_changes row).foldl apply_change row,
    accept_row_eq_of_changes now s idx row hrow hk, ?_, ?_, ?_⟩
  · show (s.doctors.set idx _)[idx]? = some _
    exact List.getElem?_set_eq_of_lt _ hlt
  · intro c hc
    obtain ⟨_, h2, _⟩ := mem_get_changes row c hc
    obtain ⟨g1, g2⟩ := foldl_apply_change_mem (get_changes row) row c
      (get_changes_fst_nodup row) hc
    exact ⟨by rw [g1, ← h2], g2⟩
  · have hmap : ((get_changes row).map (fun c => c.1.name)).isEmpty = false := by
      cases hcs : get_changes row with
      | nil => exact absurd hcs hk
      | cons c t => rfl
    show s.audit ++ [_] = s.audit ++ [_]
    rw [hmap]
    rfl

/-- Witness: accepting seed row 1 (Dr. Michael Chen), whose change list has
size two. -/
theorem accept_applies_all_changes_witness :
    ∃ s' row2, accept_row dt0 init_state 1 = some s' ∧
      s'.doctors[1]? = some row2 ∧
      (∀ c ∈ get_changes chen_row,
        row2.cur c.1 = chen_row.prop c.1 ∧
        row2.prop c.1 = clear_slot (chen_row.prop c.1)) ∧
      s'.audit = init_state.audit ++
        [{ time := strftime_minute dt0, reviewer := REVIEWER,
           name := chen_row.name, action := "accepted",
           fields := String.intercalate ", "
             ((get_changes chen_row).map (fun c => c.1.name)) }] :=
  accept_applies_all_changes dt0 init_state 1 chen_row rfl (by decide)

/-- C3: rejecting a row clears every `_nonempty` proposal slot — including
slots whose proposed value equals the current one — leaves every current
field untouched, unconditionally records the entity's last action as
`rejected`, and appends exactly one audit entry with action `rejected`
whose field list is the affected base field names in the fixed order (the
placeholder `-` when there were none). -/
theorem reject_clears_all_proposals (now : DateTime) (s : St) (idx : Nat)
    (row : Row) (hrow : s.doctors[idx]? = some row) :
    ∃ s' row2, reject_row now s idx = some s' ∧
      s'.doctors[idx]? = some row2 ∧
      (∀ f ∈ proposed_fields row, row2.prop f = clear_slot (row.prop f)) ∧
      (∀ f ∉ proposed_fields row, row2.prop f = row.prop f) ∧
      (∀ f, row2.cur f = row.cur f) ∧
      dict_get s'.actions row.name = some "rejected" ∧
      s'.audit = s.audit ++
        [{ time := strftime_minute now, reviewer := REVIEWER,
           name := row.name, action := "rejected",
           fields := if (proposed_fields row).isEmpty then "-"
             else String.intercalate ", "
               ((proposed_fields row).map Field.name) }] := by
  have hlt : idx < s.doctors.length := (List.getElem?_eq_some.1 hrow).1
  refine ⟨_, (proposed_fields row).foldl clear_step row,
    reject_row_eq now s idx row hrow, ?_, ?_, ?_, ?_, ?_, ?_⟩
  · show (s.doctors.set idx _)[idx]? = some _
    exact List.getElem?_set_eq_of_lt _ hlt
  · intro f hf
    exact foldl_clear_step_prop_mem _ row f (proposed_fields_nodup row) hf
  · intro f hf
    exact foldl_clear_step_prop_not_mem _ row f hf
  · intro f
    exact foldl_clear_step_cur _ row f
  · show dict_get (set_action s.actions row.name "rejected") row.name
      = some "rejected"
    exact dict_get_set_action s.actions row.name "rejected"
  · show s.audit ++ [_] = s.audit ++ [_]
    cases hps : proposed_fields row with
    | nil => rfl
    | cons f t => rfl

/-- Witness: rejecting seed row 0 (Dr. Sarah Johnson), whose single active
proposal equals her current Address and is cleared anyway. -/
theorem reject_clears_all_proposals_witness :
    ∃ s' row2, reject_row dt0 init_state 0 = some s' ∧
      s'.doctors[0]? = some row2 ∧
      (∀ f ∈ proposed_fields sarah_row,
        row2.prop f = clear_slot (sarah_row.prop f)) ∧
      (∀ f ∉ proposed_fields sarah_row, row2.prop f = sarah_row.prop f) ∧
      (∀ f, row2.cur f = sarah_row.cur f) ∧
      dict_get s'.actions sarah_row.name = some "rejected" ∧
      s'.audit = init_state.audit ++
        [{ time := strftime_minute dt0, reviewer := REVIEWER,
           name := sarah_row.name, action := "rejected",
           fields := if (proposed_fields sarah_row).isEmpty then "-"
             else String.intercalate ", "
               ((proposed_fields sarah_row).map Field.name) }] :=
  reject_clears_all_proposals dt0 init_state 0 sarah_row rfl

/-- C6: once a row's proposal slots are all inactive — as they are right
after an accept or reject has cleared them — re-invoking accept or reject
leaves the row's current fields and proposal slots unchanged, while still
appending a fresh audit entry: `accepted (no-op)` for a re-accept and
`rejected` for a re-reject. -/
theorem resolved_row_reinvoke (now : DateTime) (s : St) (idx : Nat)
    (row : Row) (hrow : s.doctors[idx]? = some row)
    (hcl : ∀ f, _nonempty (row.prop f) = false) :
    accept_row now s idx = some
      { s with audit := s.audit ++
          [{ time := strftime_minute now, reviewer := REVIEWER,
             name := row.name, action := "accepted (no-op)",
             fields := "-" }] } ∧
    (∃ s', reject_row now s idx = some s' ∧
      s'.doctors[idx]? = some row ∧
      s'.audit = s.audit ++
        [{ time := strftime_minute now, reviewer := REVIEWER,
           name := row.name, action := "rejected", fields := "-" }]) := by
  have hz := get_changes_nil_of_inactive row hcl
  have hps := proposed_fields_nil_of_inactive row hcl
  have hlt : idx < s.doctors.length := (List.getElem?_eq_some.1 hrow).1
  constructor
  · rw [accept_row_eq_of_no_changes now s idx row hrow hz]
    rfl
  · refine ⟨_, reject_row_eq now s idx row hrow, ?_, ?_⟩
    · show (s.doctors.set idx ((proposed_fields row).foldl clear_step row))[idx]?
        = some row
      rw [hps]
      exact List.getElem?_set_eq_of_lt _ hlt
    · show s.audit ++ [_] = s.audit ++ [_]
      rw [hps]
      rfl

/-- Witness: re-invoking accept and reject on an already-resolved row. -/
theorem resolved_row_reinvoke_witness :
    accept_row dt0 cleared_state 0 = some
      { cleared_state with audit := cleared_state.audit ++
          [{ time := strftime_minute dt0, reviewer := REVIEWER,
             name := sarah_cleared.name, action := "accepted (no-op)",
             fields := "-" }] } ∧
    (∃ s', reject_row dt0 cleared_state 0 = some s' ∧
      s'.doctors[0]? = some sarah_cleared ∧
      s'.audit = cleared_state.audit ++
        [{ time := strftime_minute dt0, reviewer := REVIEWER,
           name := sarah_cleared.name, action := "rejected",
           fields := "-" }]) :=
  resolved_row_reinvoke dt0 cleared_state 0 sarah_cleared rfl
    (fun f => by cases f <;> rfl)

/-- C7: the Clear Session Actions reset empties only the action map and the
Clear Audit Log reset empties only the audit log; neither touches the row
collection nor the other component. -/
theorem clear_buttons_frame (s : St) :
    (clear_actions s).actions = [] ∧
    (clear_actions s).audit = s.audit ∧
    (clear_actions s).doctors = s.doctors ∧
    (clear_audit s).audit = [] ∧
    (clear_audit s).actions = s.actions ∧
    (clear_audit s).doctors = s.doctors :=
  ⟨rfl, rfl, rfl, rfl, rfl, rfl⟩

/-- C8: the audit log is append-only: `log_audit` appends exactly one entry
holding the minute-granularity timestamp (the format ignores the seconds
component), the fixed reviewer, the entity name, the action kind and the
joined field list (placeholder `-` when empty); every accept or reject
extends the log by exactly one entry so the existing log stays a prefix,
and clearing the action map does not touch it. -/
theorem audit_log_append_only (now : DateTime) (s : St) (idx : Nat)
    (name action : String) (fields : List String) (d d' : DateTime)
    (hy : d.year = d'.year) (hmo : d.month = d'.month)
    (hdy : d.day = d'.day) (hh : d.hour = d'.hour)
    (hmi : d.minute = d'.minute) :
    strftime_minute d = strftime_minute d' ∧
    (log_audit now s name action fields).audit = s.audit ++
      [{ time := strftime_minute now, reviewer := REVIEWER, name := name,
         action := action,
         fields := if fields.isEmpty then "-"
           else String.intercalate ", " fields }] ∧
    (∀ s', accept_row now s idx = some s' →
      s.audit <+: s'.audit ∧ s'.audit.length = s.audit.length + 1) ∧
    (∀ s', reject_row now s idx = some s' →
      s.audit <+: s'.audit ∧ s'.audit.length = s.audit.length + 1) ∧
    (clear_actions s).audit = s.audit := by
  refine ⟨?_, rfl, ?_, ?_, rfl⟩
  · unfold strftime_minute
    rw [hy, hmo, hdy, hh, hmi]
  · intro s' hs'
    cases hrow : s.doctors[idx]? with
    | none =>
      rw [show accept_row now s idx = none by unfold accept_row; rw [hrow]]
        at hs'
      cases hs'
    | some row =>
      by_cases hz : get_changes row = []
      · rw [accept_row_eq_of_no_changes now s idx row hrow hz] at hs'
        injection hs' with hs'
        subst hs'
        exact ⟨List.prefix_append _ _, by simp [log_audit]⟩
      · rw [accept_row_eq_of_changes now s idx row hrow hz] at hs'
        injection hs' with hs'
        subst hs'
        exact ⟨List.prefix_append _ _, by simp [log_audit]⟩
  · intro s' hs'
    cases hrow : s.doctors[idx]? with
    | none =>
      rw [show reject_row now s idx = none by unfold reject_row; rw [hrow]]
        at hs'
      cases hs'
    | some row =>
      rw [reject_row_eq now s idx row hrow] at hs'
      injection hs' with hs'
      subst hs'
      exact ⟨List.prefix_append _ _, by simp [log_audit]⟩

/-- Witness: the append-only facts at a concrete state, with two instants
differing only in their seconds. -/
theorem audit_log_append_only_witness :
    strftime_minute ⟨2026, 10, 12, 9, 5, 0⟩
      = strftime_minute ⟨2026, 10, 12, 9, 5, 59⟩ ∧
    (log_audit dt0 init_state "Dr. Lisa Park" "accepted" ["Address"]).audit
      = init_state.audit ++
      [{ time := strftime_minute dt0, reviewer := REVIEWER,
         name := "Dr. Lisa Park", action := "accepted",
         fields := if (["Address"] : List String).isEmpty then "-"
           else String.intercalate ", " ["Address"] }] ∧
    (∀ s', accept_row dt0 init_state 0 = some s' →
      init_state.audit <+: s'.audit ∧
      s'.audit.length = init_state.audit.length + 1) ∧
    (∀ s', reject_row dt0 init_state 0 = some s' →
      init_state.audit <+: s'.audit ∧
      s'.audit.length = init_state.audit.length + 1) ∧
    (clear_actions init_state).audit = init_state.audit :=
  audit_log_append_only dt0 init_state 0 "Dr. Lisa Park" "accepted"
    ["Address"] ⟨2026, 10, 12, 9, 5, 0⟩ ⟨2026, 10, 12, 9, 5, 59⟩
    rfl rfl rfl rfl rfl

theorem pyStrip_eq_empty_of_whitespace (w : String)
    (hw : ∀ c ∈ w.data, c.isWhitespace = true) : pyStrip w = "" := by
  unfold pyStrip stripChars
  rw [List.dropWhile_eq_nil_iff.2 (fun c hc => hw c hc)]
  rfl

/-- C9: a proposal slot holding `None`, a NaN float, or a whitespace-only
string is treated as absent: `_nonempty` is false on it, the field never
appears in the change list, and it is never counted among a reject's
affected fields — whitespace-only proposals are silently discarded. -/
theorem whitespace_proposal_is_absent (row : Row) (f : Field) (w : String)
    (hw : ∀ c ∈ w.data, c.isWhitespace = true)
    (habs : row.prop f = Val.vnone ∨ row.prop f = Val.vnan ∨
      row.prop f = Val.vstr w) :
    _nonempty (row.prop f) = false ∧
    (∀ o n, (f, o, n) ∉ get_changes row) ∧
    f ∉ proposed_fields row := by
  have hne : _nonempty (row.prop f) = false := by
    rcases habs with h | h | h <;> rw [h]
    · rfl
    · rfl
    · show (pyStrip (pyStr (Val.vstr w)) != "") = false
      rw [show pyStr (Val.vstr w) = w from rfl,
        pyStrip_eq_empty_of_whitespace w hw]
      rfl
  refine ⟨hne, ?_, ?_⟩
  · intro o n hmem
    obtain ⟨_, _, h3⟩ := mem_get_changes row (f, o, n) hmem
    rw [is_change] at h3
    rw [hne] at h3
    cases h3
  · intro hmem
    have h := (List.mem_filter.1 hmem).2
    rw [hne] at h
    cases h

/-- Witness: a whitespace-only Focus proposal is discarded everywhere. -/
theorem whitespace_proposal_is_absent_witness :
    _nonempty (ws_row.prop Field.focus) = false ∧
    (∀ o n, (Field.focus, o, n) ∉ get_changes ws_row) ∧
    Field.focus ∉ proposed_fields ws_row :=
  whitespace_proposal_is_absent ws_row Field.focus "   " (by decide)
    (Or.inr (Or.inr rfl))

/-- C10: a no-op accept leaves the name-to-last-action map unchanged, so an
entity whose only action was a no-op accept appears in neither rollup
column; only an accept that applies at least one change records
`accepted`, while a reject records `rejected` even when the row had no
proposals. -/
theorem action_map_updates (now : DateTime) (s : St) (idx : Nat) (row : Row)
    (hrow : s.doctors[idx]? = some row) :
    (get_changes row = [] → ∀ s', accept_row now s idx = some s' →
      s'.actions = s.actions ∧
      ((∀ p ∈ s.actions, p.1 ≠ row.name) →
        row.name ∉ accepted_names s'.actions ∧
        row.name ∉ rejected_names s'.actions)) ∧
    (get_changes row ≠ [] → ∀ s', accept_row now s idx = some s' →
      dict_get s'.actions row.name = some "accepted") ∧
    (∀ s', reject_row now s idx = some s' →
      dict_get s'.actions row.name = some "rejected") := by
  refine ⟨?_, ?_, ?_⟩
  · intro hz s' hs'
    rw [accept_row_eq_of_no_changes now s idx row hrow hz] at hs'
    injection hs' with hs'
    subst hs'
    refine ⟨rfl, fun hname => ⟨?_, ?_⟩⟩
    · intro hmem
      obtain ⟨p, hp, hpeq⟩ := List.mem_map.1 hmem
      exact hname p (List.mem_filter.1 hp).1 hpeq
    · intro hmem
      obtain ⟨p, hp, hpeq⟩ := List.mem_map.1 hmem
      exact hname p (List.mem_filter.1 hp).1 hpeq
  · intro hk s' hs'
    rw [accept_row_eq_of_changes now s idx row hrow hk] at hs'
    injection hs' with hs'
    subst hs'
    exact dict_get_set_action s.actions row.name "accepted"
  · intro s' hs'
    rw [reject_row_eq now s idx row hrow] at hs'
    injection hs' with hs'
    subst hs'
    exact dict_get_set_action s.actions row.name "rejected"

/-- Witness: the action-map effects at seed row 0 (no active changes). -/
theorem action_map_updates_witness :
    (get_changes sarah_row = [] → ∀ s', accept_row dt0 init_state 0 = some s' →
      s'.actions = init_state.actions ∧
      ((∀ p ∈ init_state.actions, p.1 ≠ sarah_row.name) →
        sarah_row.name ∉ accepted_names s'.actions ∧
        sarah_row.name ∉ rejected_names s'.actions)) ∧
    (get_changes sarah_row ≠ [] → ∀ s', accept_row dt0 init_state 0 = some s' →
      dict_get s'.actions sarah_row.name = some "accepted") ∧
    (∀ s', reject_row dt0 init_state 0 = some s' →
      dict_get s'.actions sarah_row.name = some "rejected") :=
  action_map_updates dt0 init_state 0 sarah_row rfl

end DoctorReview
